import Mathlib

/-!
# Verification development for the agent's security model, orchestrator component,
# kubeapiserver test helper and workload entity store

Go strings are embedded as Lean `String`s; the only string operations the embedded
code performs are `strings.HasPrefix` against ASCII literals and `%s` formatting, which
act the same way on bytes and on characters.  Go `error` results are embedded as
`Except String Unit` (`.ok ()` is the nil error, `.error msg` carries the message).
Nilable Go values (interfaces, channels) are embedded as `Option`.
-/

set_option autoImplicit false

/-! ## pkg/security/probe/model_ebpfless.go -/

namespace strings

/-- Go standard library `strings.HasPrefix(s, prefix)`:
`len(s) >= len(prefix) && s[:len(prefix)] == prefix`. -/
def HasPrefix (s pre : String) : Bool :=
  decide (s.length ≥ pre.length) && decide (s.data.take pre.length = pre.data)

end strings

namespace model

/-- Modelled from the spec: the `model.Model` struct, whose declaration is missing, with
the one field `NewEBPFLessModel` fills: the extra field validation hook, "an injected
predicate/strategy over (field name, value)" (§9).  `FieldValue` stands for
`eval.FieldValue`, and `eval.Field` is a Go string. -/
structure Model (FieldValue : Type) where
  ExtraValidateFieldFnc : String → FieldValue → Except String Unit

end model

namespace probe

/-- `NewEBPFLessModel` of model_ebpfless.go: a model whose validation hook rejects
every field that starts with none of the five prefixes. -/
def NewEBPFLessModel (FieldValue : Type) : model.Model FieldValue :=
  { ExtraValidateFieldFnc := fun field _fieldValue =>
      if !strings.HasPrefix field "exec." &&
          !strings.HasPrefix field "exit." &&
          !strings.HasPrefix field "open." &&
          !strings.HasPrefix field "process." &&
          !strings.HasPrefix field "container." then
        .error (field ++ " is not available with the eBPF less version")
      else
        .ok () }

end probe

/-! ## cmd/otel-agent/subcommands/run/command.go -/

namespace run

/-- The `orchestratorinterfaceimpl` struct; `Forwarder` stands for the
`defaultforwarder.Forwarder` interface, whose nil value is `none`. -/
structure orchestratorinterfaceimpl (Forwarder : Type) where
  f : Option Forwarder
  deriving DecidableEq, Repr

variable {Forwarder : Type}

/-- `newOrchestratorinterfaceimpl(f)`. -/
def newOrchestratorinterfaceimpl (f : Option Forwarder) : orchestratorinterfaceimpl Forwarder :=
  { f := f }

/-- `(o *orchestratorinterfaceimpl) Get()`: the returned pair, and the component after
the call (the method has a pointer receiver and writes nothing). -/
def orchestratorinterfaceimpl.Get (o : orchestratorinterfaceimpl Forwarder) :
    (Option Forwarder × Bool) × orchestratorinterfaceimpl Forwarder :=
  ((o.f, true), o)

/-- `(o *orchestratorinterfaceimpl) Reset()`: the component after `o.f = nil`. -/
def orchestratorinterfaceimpl.Reset (o : orchestratorinterfaceimpl Forwarder) :
    orchestratorinterfaceimpl Forwarder :=
  { o with f := none }

/-- A method call on the component. -/
inductive Call where
  | get
  | reset
  deriving DecidableEq, Repr

/-- Runs a sequence of method calls on a component, in order; returns the component
after the last call and the pairs returned by the `Get` calls, in call order. -/
def runCalls : orchestratorinterfaceimpl Forwarder → List Call →
    orchestratorinterfaceimpl Forwarder × List (Option Forwarder × Bool)
  | o, [] => (o, [])
  | o, Call.get :: cs =>
      let r := o.Get
      let rest := runCalls r.2 cs
      (rest.1, r.1 :: rest.2)
  | o, Call.reset :: cs => runCalls o.Reset cs

end run

/-! ## pkg/workloadmeta/collectors/internal/kubeapiserver/test_helpers.go -/

namespace workloadmeta

/-- Modelled from the spec: the `workloadmeta.EventBundle` struct, whose declaration is
missing (§3: an ordered sequence of change events plus an acknowledgment handle), with
the two fields test_helpers.go relies on: the events of the bundle and `Ch`, the channel
the subscriber closes once it has handled the bundle.  `Evs` stands for the Go type of
the `Events` field, compared by deep equality; a channel value is nil (`none`) or the
identity of a channel. -/
structure EventBundle (Evs : Type) where
  Events : Evs
  Ch : Option Nat
  deriving DecidableEq, Repr

end workloadmeta

namespace kubeapiserver

open workloadmeta

variable {Evs : Type}

/-- The constant `dummySubscriber` of test_helpers.go. -/
def dummySubscriber : String := "dummy-subscriber"

/-- How a run of testFakeHelper ends. -/
inductive Outcome (Evs : Type) where
  /-- A receive on the subscription channel never completes. -/
  | blocked
  /-- A Go runtime panic. -/
  | panicked (msg : String)
  /-- The helper reached `assert.Equal(t, expected, actual)` with this `actual`; `equal`
  is the result of the comparison. -/
  | finished (actual : List (EventBundle Evs)) (equal : Bool)
  deriving DecidableEq, Repr

/-- Modelled from the spec: what the store, whose code is missing, delivers on a
subscription channel: a bundle with its acknowledgment handle attached (§3, "an ordered
sequence of ChangeEvent ... + an acknowledgment handle"), which only the subscriber
releases (§4.4), so that `Ch` is a channel, not nil, and is still open when the bundle
arrives.  `closed` tells which channels are closed. -/
def Delivered (closed : Nat → Bool) (b : EventBundle Evs) : Bool :=
  match b.Ch with
  | some c => !closed c
  | none => false

/-- Go builtin `close(c)` on a `chan struct{}`: panics on a nil channel and on a channel
that is already closed, otherwise marks the channel closed.  `closed` tells which
channels are closed. -/
def goClose (closed : Nat → Bool) : Option Nat → Except String (Nat → Bool)
  | none => .error "close of nil channel"
  | some c =>
      if closed c then .error "close of closed channel"
      else .ok (fun x => decide (x = c) || closed x)

/-- The body of `testFakeHelper` from `ch := wlm.Subscribe(...)` on, with the
subscription channel given as the sequence `delivered` of the bundles its receives
return, `closed` telling which acknowledgment channels are already closed, and
`expected` the helper's argument; the result is how the run ends.

* `<-ch` takes the first bundle and drops it; `bundle := <-ch` takes the second; a
  receive with nothing left to deliver blocks;
* `close(bundle.Ch)`;
* `bundle.Ch = nil`; `actual = append(actual, bundle)` with `actual` empty before;
* `assert.Equal(t, expected, actual)`. -/
def testFakeHelper [DecidableEq Evs] (delivered : List (EventBundle Evs))
    (closed : Nat → Bool) (expected : List (EventBundle Evs)) : Outcome Evs :=
  match delivered with
  | [] => .blocked
  | [_first] => .blocked
  | _first :: bundle :: _ =>
      match goClose closed bundle.Ch with
      | .error msg => .panicked msg
      | .ok _ =>
          let bundle := { bundle with Ch := none }
          let actual := [] ++ [bundle]
          .finished actual (decide (expected = actual))

end kubeapiserver

/-! ## The workload entity store: source ledger and merge engine

The code of the store is not among the sources embedded here; its definitions follow the
specification (§3, §4.1, §7). -/

namespace workloadmeta

/-- Modelled from the spec: the identity of an entity (§3), a kind and a string unique
within the kind; the entity model belongs to the store, whose code is missing. -/
structure EntityID where
  Kind : String
  ID : String
  deriving DecidableEq, Repr

/-- Modelled from the spec: the typed values of attribute fields (§3: strings, tag sets,
timestamps, relations to other entities; the scenarios of §8 also use numbers). -/
inductive Value where
  | str (s : String)
  | num (n : Int)
  | tags (ts : List String)
  | time (t : Nat)
  | ref (id : EntityID)
  deriving DecidableEq, Repr

/-- Modelled from the spec: the name of an attribute field. -/
abbrev Field := String

/-- Modelled from the spec: the identifier of a source, a collector instance (§3). -/
abbrev SourceID := String

/-- Modelled from the spec: an attribute set, a mapping of attribute fields to values
(§3); a field that is absent is not listed, and `List.lookup` reads a field. -/
abbrev Attrs := List (Field × Value)

/-- Modelled from the spec: an entity (§3), its identity and its attributes. -/
structure Entity where
  ID : EntityID
  Attrs : Attrs
  deriving DecidableEq, Repr

/-- Modelled from the spec: one Source Ledger entry of an entity (§3): the source, the
attribute snapshot it last observed, and the last-update timestamp. -/
structure Snapshot where
  source : SourceID
  attrs : Attrs
  updated : Nat
  deriving DecidableEq, Repr

/-- Modelled from the spec: the Source Ledger of one entity (§2, §3): the snapshots of the
sources that currently contribute, the latest update first. -/
abbrev SourceLedger := List Snapshot

/-- Modelled from the spec: what the store is configured with: the fixed source priority
list, highest priority first (§4.1), and the attribute fields of the known schema (§7). -/
structure Config where
  priority : List SourceID
  schema : List Field
  deriving DecidableEq, Repr

/-- Modelled from the spec: what a source reports about an entity (§4.1):
`Set(attrs)` or `Unset`. -/
inductive Observation where
  | Set (attrs : Attrs)
  | Unset
  deriving DecidableEq, Repr

/-- Modelled from the spec: the condition an observation is rejected with (§7). -/
inductive Condition where
  | MalformedObservation
  deriving DecidableEq, Repr

/-- Modelled from the spec: an observation is well-formed when every attribute field it
sets belongs to the known schema (§7, "Set for an unknown attribute schema"). -/
def Observation.wellFormed (cfg : Config) : Observation → Bool
  | .Set attrs => attrs.all (fun p => decide (p.1 ∈ cfg.schema))
  | .Unset => true

/-- Modelled from the spec: the snapshot a source has in a ledger, if it has one. -/
def SourceLedger.snapshotOf (L : SourceLedger) (src : SourceID) : Option Attrs :=
  (L.find? (fun s => decide (s.source = src))).map (fun s => s.attrs)

/-- Modelled from the spec: `applySourceEvent` on the ledger of one entity (§4.1, §7).
`Set` upserts the snapshot of the source, `Unset` removes it, and a malformed
observation is rejected: it never partially applies. -/
def SourceLedger.applySourceEvent (cfg : Config) (L : SourceLedger) (src : SourceID)
    (obs : Observation) (now : Nat) : Except Condition SourceLedger :=
  if obs.wellFormed cfg then
    match obs with
    | .Set attrs =>
        .ok ({ source := src, attrs := attrs, updated := now } ::
          L.filter (fun s => decide (s.source ≠ src)))
    | .Unset => .ok (L.filter (fun s => decide (s.source ≠ src)))
  else .error .MalformedObservation

/-- Modelled from the spec: the rank of a source in the configured priority list (§4.1):
its position, and the length of the list for an unknown source, which so ranks
lowest. -/
def rank (priority : List SourceID) (s : SourceID) : Nat := priority.indexOf s

/-- Modelled from the spec: the total order of the sources (§4.1): by rank, then by
SourceID string. `precedes priority s t` says `s` has priority over `t` or is `t`. -/
def precedes (priority : List SourceID) (s t : SourceID) : Prop :=
  rank priority s < rank priority t ∨ (rank priority s = rank priority t ∧ s ≤ t)

instance precedes.decidable (priority : List SourceID) (s t : SourceID) :
    Decidable (precedes priority s t) := by
  unfold precedes
  exact inferInstance

/-- Modelled from the spec: the snapshots of a ledger in priority order, highest
priority first. -/
def SourceLedger.byPriority (priority : List SourceID) (L : SourceLedger) : List Snapshot :=
  L.insertionSort (fun a b => precedes priority a.source b.source)

/-- Modelled from the spec: the merged value of one attribute field (§4.1): the value of
the highest-priority source that has a non-absent value for the field. -/
def mergeField (priority : List SourceID) (L : SourceLedger) (f : Field) : Option Value :=
  (L.byPriority priority).findSome? (fun s => s.attrs.lookup f)

/-- Modelled from the spec: the merged attributes of a ledger, field by field over the
known schema; fields absent from all sources are absent (§4.1). -/
def mergeAttrs (cfg : Config) (L : SourceLedger) : Attrs :=
  cfg.schema.filterMap (fun f => (mergeField cfg.priority L f).map (fun v => (f, v)))

/-- Modelled from the spec: the merged entity (§3), computed from the Source Ledger
alone; there is none when the ledger is empty. -/
def mergeEntity (cfg : Config) (id : EntityID) (L : SourceLedger) : Option Entity :=
  if L.isEmpty then none else some { ID := id, Attrs := mergeAttrs cfg L }

/-- Modelled from the spec: a per-source event on one entity: the source, what it
observed, and when. -/
structure SourceEvent where
  source : SourceID
  obs : Observation
  time : Nat
  deriving DecidableEq, Repr

/-- Modelled from the spec: the state the store keeps for one entity: its Source Ledger
and the merged view computed at the last change of the ledger. -/
structure EntityState where
  ledger : SourceLedger
  merged : Option Entity
  deriving DecidableEq, Repr

/-- Modelled from the spec: an entity no source has reported yet. -/
def EntityState.init : EntityState := { ledger := [], merged := none }

/-- Modelled from the spec: one per-source event on an entity (§4.1): the ledger is
updated and the merge is recomputed fully; a rejected event leaves the state as it
was (§7). -/
def EntityState.apply (cfg : Config) (id : EntityID) (st : EntityState) (ev : SourceEvent) :
    EntityState :=
  match st.ledger.applySourceEvent cfg ev.source ev.obs ev.time with
  | .ok L => { ledger := L, merged := mergeEntity cfg id L }
  | .error _ => st

/-- Modelled from the spec: a sequence of per-source events applied to one entity, in
order, starting before any source has reported it. -/
def EntityState.applyAll (cfg : Config) (id : EntityID) (evs : List SourceEvent) : EntityState :=
  evs.foldl (EntityState.apply cfg id) EntityState.init

end workloadmeta

/-! ## The workload entity store: subscribers, bundles and dispatch

Modelled on §3, §4.2, §4.3 and §4.4 of the specification. -/

namespace workloadmeta

/-- Modelled from the spec: the type of a change event (§3). -/
inductive EventType where
  | Set
  | Unset
  deriving DecidableEq, Repr

/-- Modelled from the spec: a change event (§3): its type, the entity (the merged
snapshot for Set, the identity alone for Unset) and the source that triggered the
recomputation; the Set events of a bootstrap bundle are triggered by no source. -/
structure ChangeEvent where
  type : EventType
  entity : Entity
  source : Option SourceID
  deriving DecidableEq, Repr

/-- Modelled from the spec: the priority tier of a subscriber; a larger number is a higher
tier. -/
abbrev Priority := Nat

/-- Modelled from the spec: the tier test_helpers.go subscribes with
(`workloadmeta.NormalPriority`), the lowest. -/
def NormalPriority : Priority := 0

/-- Modelled from the spec: a subscriber (§3): its unique name, its priority tier, its
optional filter over entities (`none` for Go's nil filter) and, for its delivery
channel, the bundles generated for it so far, in generation order. -/
structure Subscriber where
  name : String
  priority : Priority
  filter : Option (Entity → Bool)
  stream : List (EventBundle (List ChangeEvent))

/-- Modelled from the spec: whether an entity passes an optional filter; every entity
passes when there is no filter. -/
def passes (filter : Option (Entity → Bool)) (e : Entity) : Bool :=
  match filter with
  | none => true
  | some p => p e

/-- Modelled from the spec: the workload entity store: its configuration, the state of
every entity some source contributes to, the subscriber registry in dispatch order
(descending priority tier), and the next unused acknowledgment handle. -/
structure Store where
  cfg : Config
  entities : List (EntityID × EntityState)
  subscribers : List Subscriber
  nextCh : Nat

/-- Modelled from the spec: the store test_helpers.go starts from
(`workloadmeta.NewMockStore()`): no entity, no subscriber. -/
def NewMockStore (cfg : Config) : Store :=
  { cfg := cfg, entities := [], subscribers := [], nextCh := 0 }

/-- Modelled from the spec: the state of one entity in the store. -/
def Store.stateOf (st : Store) (id : EntityID) : EntityState :=
  (st.entities.lookup id).getD EntityState.init

/-- Modelled from the spec: the merged view (§3): the merged entity of every entity whose
Source Ledger is not empty. -/
def Store.merged (st : Store) : List Entity :=
  st.entities.filterMap (fun p => p.2.merged)

/-- Modelled from the spec: records the new state of an entity; an entity whose ledger
became empty leaves the store (§3). -/
def setState (es : List (EntityID × EntityState)) (id : EntityID) (s : EntityState) :
    List (EntityID × EntityState) :=
  if s.ledger.isEmpty then es.filter (fun p => decide (p.1 ≠ id))
  else if es.any (fun p => decide (p.1 = id)) then
    es.map (fun p => if p.1 = id then (id, s) else p)
  else es ++ [(id, s)]

/-- Modelled from the spec: an observation a collector pushes into the store:
`applySourceEvent(entityID, sourceID, kind)` of §4.1, with the time of the update. -/
structure CollectorEvent where
  entity : EntityID
  source : SourceID
  obs : Observation
  time : Nat
  deriving DecidableEq, Repr

/-- Modelled from the spec: `applySourceEvent` on the store (§4.1): the ledger of the
entity is updated, the merge recomputed, and a change event is emitted only if the
merged entity differs by value from the one before: Set with the new merged snapshot,
or Unset when the entity left the merged view. -/
def Store.applySourceEvent (st : Store) (ev : CollectorEvent) : Store × List ChangeEvent :=
  let old := st.stateOf ev.entity
  let new := old.apply st.cfg ev.entity { source := ev.source, obs := ev.obs, time := ev.time }
  let st' := { st with entities := setState st.entities ev.entity new }
  if new.merged = old.merged then (st', [])
  else
    match new.merged with
    | some e => (st', [{ type := .Set, entity := e, source := some ev.source }])
    | none =>
        (st', [{ type := .Unset, entity := { ID := ev.entity, Attrs := [] },
                 source := some ev.source }])

/-- Modelled from the spec: the Event Bundle Builder (§4.2): drains one unit of collector
input, in arrival order, and batches the change events it produces, in emission
order. -/
def Store.ingest : Store → List CollectorEvent → Store × List ChangeEvent
  | st, [] => (st, [])
  | st, ev :: evs =>
      let r := st.applySourceEvent ev
      let rest := Store.ingest r.1 evs
      (rest.1, r.2 ++ rest.2)

/-- Modelled from the spec: the dispatcher (§4.4) on one batch of change events: each
subscriber, in registry order, gets a bundle of the events that pass its filter, with
a fresh acknowledgment handle; a subscriber none of the events concerns gets no
bundle (§3: a generated bundle is never empty).  Returns the subscribers and the next
unused handle. -/
def dispatchTo (changes : List ChangeEvent) : Nat → List Subscriber → List Subscriber × Nat
  | ch, [] => ([], ch)
  | ch, sub :: subs =>
      let events := changes.filter (fun ev => passes sub.filter ev.entity)
      if events.isEmpty then
        let r := dispatchTo changes ch subs
        (sub :: r.1, r.2)
      else
        let r := dispatchTo changes (ch + 1) subs
        ({ sub with stream := sub.stream ++ [{ Events := events, Ch := some ch }] } :: r.1, r.2)

/-- Modelled from the spec: one ingestion cycle: the collector input is drained into one
batch of change events, which is dispatched to the subscribers. -/
def Store.handleEvents (st : Store) (evs : List CollectorEvent) : Store :=
  let r := st.ingest evs
  let d := dispatchTo r.2 r.1.nextCh r.1.subscribers
  { r.1 with subscribers := d.1, nextCh := d.2 }

/-- Modelled from the spec: a sequence of ingestion cycles, in order. -/
def Store.handleAll (st : Store) (batches : List (List CollectorEvent)) : Store :=
  batches.foldl Store.handleEvents st

/-- Modelled from the spec: what `Subscribe` fails with (§4.3, §7). -/
inductive SubscribeError where
  | DuplicateSubscriberError
  deriving DecidableEq, Repr

/-- Modelled from the spec: puts a subscriber in the registry, after the subscribers of
its tier and of higher tiers. -/
def insertByPriority (sub : Subscriber) : List Subscriber → List Subscriber
  | [] => [sub]
  | s :: subs =>
      if s.priority < sub.priority then sub :: s :: subs
      else s :: insertByPriority sub subs

/-- Modelled from the spec: the bootstrap bundle events of a new subscriber (§4.3): a Set
event for every entity of the merged view that passes its filter. -/
def Store.bootstrapEvents (st : Store) (filter : Option (Entity → Bool)) : List ChangeEvent :=
  (st.merged.filter (fun e => passes filter e)).map
    (fun e => { type := .Set, entity := e, source := none })

/-- Modelled from the spec: `Subscribe(name, priority, filter)` (§4.3): fails when the
name is already registered; otherwise registers the subscriber with the bootstrap bundle
as the first bundle of its delivery channel. -/
def Store.Subscribe (st : Store) (name : String) (priority : Priority)
    (filter : Option (Entity → Bool)) : Except SubscribeError Store :=
  if st.subscribers.any (fun s => decide (s.name = name)) then
    .error .DuplicateSubscriberError
  else
    .ok { st with
      subscribers := insertByPriority
        { name := name, priority := priority, filter := filter,
          stream := [{ Events := st.bootstrapEvents filter, Ch := some st.nextCh }] }
        st.subscribers
      nextCh := st.nextCh + 1 }

/-- Modelled from the spec: the bundles the delivery channel of the subscriber `name`
delivers, in order; none when the name is not registered. -/
def Store.streamOf (st : Store) (name : String) : List (EventBundle (List ChangeEvent)) :=
  match st.subscribers.find? (fun s => decide (s.name = name)) with
  | some s => s.stream
  | none => []

end workloadmeta

/-! ## Theorems: model_ebpfless.go -/

namespace strings

theorem hasPrefix_iff (s pre : String) :
    HasPrefix s pre = true ↔ ∃ rest : String, s = pre ++ rest := by
  unfold HasPrefix
  simp only [Bool.and_eq_true, decide_eq_true_eq, String.length]
  constructor
  · rintro ⟨_, h⟩
    refine ⟨⟨s.data.drop pre.data.length⟩, ?_⟩
    apply String.ext
    simp only [String.data_append]
    have hsplit := List.take_append_drop pre.data.length s.data
    rw [h] at hsplit
    exact hsplit.symm
  · rintro ⟨rest, rfl⟩
    simp [String.data_append]

end strings

namespace probe

theorem validate_ok_iff {FV : Type} (field : String) (v : FV) :
    (NewEBPFLessModel FV).ExtraValidateFieldFnc field v = .ok () ↔
      (strings.HasPrefix field "exec." = true ∨ strings.HasPrefix field "exit." = true ∨
        strings.HasPrefix field "open." = true ∨ strings.HasPrefix field "process." = true ∨
        strings.HasPrefix field "container." = true) := by
  simp only [NewEBPFLessModel]
  cases strings.HasPrefix field "exec." <;> cases strings.HasPrefix field "exit." <;>
    cases strings.HasPrefix field "open." <;> cases strings.HasPrefix field "process." <;>
    cases strings.HasPrefix field "container." <;> simp

theorem validate_cases {FV : Type} (field : String) (v : FV) :
    (NewEBPFLessModel FV).ExtraValidateFieldFnc field v = .ok () ∨
      (NewEBPFLessModel FV).ExtraValidateFieldFnc field v =
        .error (field ++ " is not available with the eBPF less version") := by
  simp only [NewEBPFLessModel]
  split <;> simp

end probe

/-! ## Claims on model_ebpfless.go -/

/-- C1: for every field name and field value, the validation hook of the model returned
by `NewEBPFLessModel` returns no error exactly when the field name is one of the five
prefixes "exec.", "exit.", "open.", "process.", "container." followed by some rest, and
returns an error for every other name; the empty name and the bare names "exec" and
"open" are rejected. -/
theorem C1_validate_prefixes {FV : Type} (field : String) (v : FV) :
    ((probe.NewEBPFLessModel FV).ExtraValidateFieldFnc field v = .ok () ↔
      ∃ p ∈ ["exec.", "exit.", "open.", "process.", "container."],
        ∃ rest : String, field = p ++ rest) ∧
    ((¬ ∃ p ∈ ["exec.", "exit.", "open.", "process.", "container."],
        ∃ rest : String, field = p ++ rest) ↔
      ∃ msg, (probe.NewEBPFLessModel FV).ExtraValidateFieldFnc field v = .error msg) ∧
    (∃ msg, (probe.NewEBPFLessModel FV).ExtraValidateFieldFnc "" v = .error msg) ∧
    (∃ msg, (probe.NewEBPFLessModel FV).ExtraValidateFieldFnc "exec" v = .error msg) ∧
    (∃ msg, (probe.NewEBPFLessModel FV).ExtraValidateFieldFnc "open" v = .error msg) := by
  have key : ∀ fld : String,
      ((probe.NewEBPFLessModel FV).ExtraValidateFieldFnc fld v = .ok () ↔
        ∃ p ∈ ["exec.", "exit.", "open.", "process.", "container."],
          ∃ rest : String, fld = p ++ rest) := by
    intro fld
    rw [probe.validate_ok_iff]
    simp only [strings.hasPrefix_iff, List.mem_cons, List.mem_singleton, List.not_mem_nil,
      or_false, exists_eq_or_imp, exists_eq_left]
  have err : ∀ fld : String,
      (¬ (probe.NewEBPFLessModel FV).ExtraValidateFieldFnc fld v = .ok ()) ↔
        ∃ msg, (probe.NewEBPFLessModel FV).ExtraValidateFieldFnc fld v = .error msg := by
    intro fld
    rcases probe.validate_cases fld v with h | h <;> rw [h] <;> simp
  refine ⟨key field, ?_, ?_, ?_, ?_⟩
  · rw [← key field]; exact err field
  · exact ⟨_, rfl⟩
  · exact ⟨_, rfl⟩
  · exact ⟨_, rfl⟩

/-- C8: the validation hook of the model returned by `NewEBPFLessModel` depends on the
field name only: for two field values it returns the same result, it errors for one
exactly when it errors for the other, and every error message is the field name followed
by " is not available with the eBPF less version". -/
theorem C8_validate_ignores_value {FV : Type} (field : String) (v1 v2 : FV) :
    (probe.NewEBPFLessModel FV).ExtraValidateFieldFnc field v1 =
        (probe.NewEBPFLessModel FV).ExtraValidateFieldFnc field v2 ∧
    ((∃ msg, (probe.NewEBPFLessModel FV).ExtraValidateFieldFnc field v1 = .error msg) ↔
      ∃ msg, (probe.NewEBPFLessModel FV).ExtraValidateFieldFnc field v2 = .error msg) ∧
    (∀ msg, (probe.NewEBPFLessModel FV).ExtraValidateFieldFnc field v1 = .error msg →
      msg = field ++ " is not available with the eBPF less version") ∧
    (∀ msg, (probe.NewEBPFLessModel FV).ExtraValidateFieldFnc field v2 = .error msg →
      msg = field ++ " is not available with the eBPF less version") := by
  have same : (probe.NewEBPFLessModel FV).ExtraValidateFieldFnc field v1 =
      (probe.NewEBPFLessModel FV).ExtraValidateFieldFnc field v2 := rfl
  have msgOf : ∀ w : FV, ∀ msg,
      (probe.NewEBPFLessModel FV).ExtraValidateFieldFnc field w = .error msg →
        msg = field ++ " is not available with the eBPF less version" := by
    intro w msg h
    rcases probe.validate_cases field w with h' | h' <;> rw [h'] at h
    · cases h
    · injection h with h; exact h.symm
  exact ⟨same, by rw [same], msgOf v1, msgOf v2⟩

/-! ## Claims on command.go -/

/-- C9: for every forwarder `f` (nil included), `Get` on the component returned by
`newOrchestratorinterfaceimpl(f)` returns `(f, true)` and leaves the component as it was;
any number of `Get` calls in a row return that same pair each time and leave the
component unchanged. -/
theorem C9_get_returns_forwarder {Forwarder : Type} (f : Option Forwarder) (n : Nat) :
    (run.newOrchestratorinterfaceimpl f).Get = ((f, true), run.newOrchestratorinterfaceimpl f) ∧
    run.runCalls (run.newOrchestratorinterfaceimpl f) (List.replicate n run.Call.get) =
      (run.newOrchestratorinterfaceimpl f, List.replicate n (f, true)) := by
  refine ⟨rfl, ?_⟩
  induction n with
  | zero => rfl
  | succ k ih =>
    simp only [List.replicate_succ, run.runCalls, run.orchestratorinterfaceimpl.Get]
    rw [ih]
    rfl

/-- C10: for every forwarder `f`, after `Reset` on the component returned by
`newOrchestratorinterfaceimpl(f)`, `Get` returns `(nil, true)`; after any sequence of
`Get` and `Reset` calls every pair returned by a `Get` of the sequence, and the pair
returned by a further `Get`, has the boolean `true`; and `Reset` is idempotent. -/
theorem C10_reset_clears_forwarder {Forwarder : Type} (f : Option Forwarder)
    (calls : List run.Call) :
    (run.newOrchestratorinterfaceimpl f).Reset.Get.1 = (none, true) ∧
    (∀ r ∈ (run.runCalls (run.newOrchestratorinterfaceimpl f) calls).2, r.2 = true) ∧
    (run.runCalls (run.newOrchestratorinterfaceimpl f) calls).1.Get.1.2 = true ∧
    (run.runCalls (run.newOrchestratorinterfaceimpl f) calls).1.Reset.Reset =
      (run.runCalls (run.newOrchestratorinterfaceimpl f) calls).1.Reset ∧
    (run.newOrchestratorinterfaceimpl f).Reset.Reset = (run.newOrchestratorinterfaceimpl f).Reset := by
  refine ⟨rfl, ?_, rfl, rfl, rfl⟩
  generalize run.newOrchestratorinterfaceimpl f = o
  induction calls generalizing o with
  | nil => intro r hr; cases hr
  | cons c cs ih =>
    cases c with
    | get =>
      intro r hr
      simp only [run.runCalls, List.mem_cons] at hr
      rcases hr with rfl | hr
      · rfl
      · exact ih _ r hr
    | reset =>
      intro r hr
      simp only [run.runCalls] at hr
      exact ih _ r hr

/-! ## Claims on test_helpers.go -/

/-- C7: with the subscription channel modelled as the sequence of bundles it delivers,
each carrying its open acknowledgment channel, for every such sequence with at least two
bundles testFakeHelper builds `actual` as the list of exactly one element, the second
bundle delivered with its `Ch` set to nil and its events unchanged; the first bundle is
discarded whatever it contains (and so is everything after the second), so the final
equality holds if and only if `expected` is the one-element list holding the second
bundle's events with a nil `Ch`. -/
theorem C7_actual_is_second_bundle {Evs : Type} [DecidableEq Evs]
    (first second : workloadmeta.EventBundle Evs) (rest : List (workloadmeta.EventBundle Evs))
    (closed : Nat → Bool) (expected : List (workloadmeta.EventBundle Evs))
    (hdelivered : ∀ b ∈ first :: second :: rest, kubeapiserver.Delivered closed b = true) :
    kubeapiserver.testFakeHelper (first :: second :: rest) closed expected =
      .finished [{ Events := second.Events, Ch := none }]
        (decide (expected = [{ Events := second.Events, Ch := none }])) ∧
    (kubeapiserver.testFakeHelper (first :: second :: rest) closed expected =
        .finished [{ Events := second.Events, Ch := none }] true ↔
      expected = [{ Events := second.Events, Ch := none }]) ∧
    (∀ (other : workloadmeta.EventBundle Evs) (others : List (workloadmeta.EventBundle Evs)),
      kubeapiserver.testFakeHelper (other :: second :: others) closed expected =
        kubeapiserver.testFakeHelper (first :: second :: rest) closed expected) := by
  have hsecond : kubeapiserver.Delivered closed second = true :=
    hdelivered second (List.mem_cons_of_mem _ (List.mem_cons_self _ _))
  obtain ⟨c, hch, hopen⟩ : ∃ c, second.Ch = some c ∧ closed c = false := by
    unfold kubeapiserver.Delivered at hsecond
    cases hc : second.Ch with
    | none => rw [hc] at hsecond; cases hsecond
    | some c =>
      rw [hc] at hsecond
      exact ⟨c, rfl, by simpa using hsecond⟩
  have hout : ∀ (o : workloadmeta.EventBundle Evs) (os : List (workloadmeta.EventBundle Evs)),
      kubeapiserver.testFakeHelper (o :: second :: os) closed expected =
        .finished [{ Events := second.Events, Ch := none }]
          (decide (expected = [{ Events := second.Events, Ch := none }])) := by
    intro o os
    simp [kubeapiserver.testFakeHelper, kubeapiserver.goClose, hch, hopen]
  refine ⟨hout first rest, ?_, fun o os => by rw [hout, hout]⟩
  rw [hout]
  simp

/-- C7 at a concrete delivery of three bundles, each with its own open acknowledgment
channel: `actual` is the second bundle with a nil `Ch`, and it equals `expected`. -/
theorem C7_actual_is_second_bundle_witness :
    (∀ b ∈ [({ Events := [1], Ch := some 10 } : workloadmeta.EventBundle (List Nat)),
        { Events := [7, 8], Ch := some 11 }, { Events := [9], Ch := some 12 }],
      kubeapiserver.Delivered (fun _ => false) b = true) ∧
    kubeapiserver.testFakeHelper
        [({ Events := [1], Ch := some 10 } : workloadmeta.EventBundle (List Nat)),
          { Events := [7, 8], Ch := some 11 }, { Events := [9], Ch := some 12 }]
        (fun _ => false) [{ Events := [7, 8], Ch := none }] =
      .finished [{ Events := [7, 8], Ch := none }]
        (decide (([{ Events := [7, 8], Ch := none }] : List (workloadmeta.EventBundle (List Nat))) =
          [{ Events := [7, 8], Ch := none }])) :=
  ⟨by decide,
    (C7_actual_is_second_bundle
      ({ Events := [1], Ch := some 10 } : workloadmeta.EventBundle (List Nat))
      { Events := [7, 8], Ch := some 11 } [{ Events := [9], Ch := some 12 }]
      (fun _ => false) [{ Events := [7, 8], Ch := none }] (by decide)).1⟩

/-! ## Theorems: source ledger and merge engine -/

namespace workloadmeta

theorem precedes_total (p : List SourceID) (s t : SourceID) :
    precedes p s t ∨ precedes p t s := by
  unfold precedes
  rcases Nat.lt_trichotomy (rank p s) (rank p t) with h | h | h
  · exact Or.inl (Or.inl h)
  · rcases le_total s t with hst | hst
    · exact Or.inl (Or.inr ⟨h, hst⟩)
    · exact Or.inr (Or.inr ⟨h.symm, hst⟩)
  · exact Or.inr (Or.inl h)

theorem precedes_refl (p : List SourceID) (s : SourceID) : precedes p s s :=
  Or.inr ⟨rfl, le_refl s⟩

theorem precedes_trans {p : List SourceID} {a b c : SourceID}
    (hab : precedes p a b) (hbc : precedes p b c) : precedes p a c := by
  unfold precedes at *
  rcases hab with h1 | ⟨h1, l1⟩ <;> rcases hbc with h2 | ⟨h2, l2⟩
  · exact Or.inl (by omega)
  · exact Or.inl (by omega)
  · exact Or.inl (by omega)
  · exact Or.inr ⟨by omega, le_trans l1 l2⟩

theorem precedes_antisymm {p : List SourceID} {s t : SourceID}
    (hst : precedes p s t) (hts : precedes p t s) : s = t := by
  unfold precedes at *
  rcases hst with h1 | ⟨_, l1⟩ <;> rcases hts with h2 | ⟨h2, l2⟩
  · omega
  · omega
  · omega
  · exact le_antisymm l1 l2

/-- On a list sorted by `r`, the first element `findSome?` accepts is `r`-below every
element it would accept. -/
theorem findSome_pairwise {α β : Type} {r : α → α → Prop} (hrefl : ∀ a, r a a)
    (g : α → Option β) : ∀ (l : List α), l.Pairwise r → ∀ v, l.findSome? g = some v →
      ∃ x ∈ l, g x = some v ∧ ∀ y ∈ l, (g y).isSome = true → r x y := by
  intro l
  induction l with
  | nil => intro _ v h; simp at h
  | cons a l ih =>
    intro hp v h
    rw [List.pairwise_cons] at hp
    rw [List.findSome?_cons] at h
    cases hga : g a with
    | some b =>
      rw [hga] at h
      simp only [Option.some.injEq] at h
      subst h
      refine ⟨a, List.mem_cons_self _ _, hga, ?_⟩
      intro y hy _
      rcases List.mem_cons.mp hy with rfl | hy
      · exact hrefl _
      · exact hp.1 y hy
    | none =>
      rw [hga] at h
      obtain ⟨x, hx, hgx, hall⟩ := ih hp.2 v h
      refine ⟨x, List.mem_cons_of_mem _ hx, hgx, ?_⟩
      intro y hy hsome
      rcases List.mem_cons.mp hy with rfl | hy
      · rw [hga] at hsome; cases hsome
      · exact hall y hy hsome

theorem mem_byPriority {p : List SourceID} {L : SourceLedger} {s : Snapshot} :
    s ∈ L.byPriority p ↔ s ∈ L :=
  (List.perm_insertionSort _ L).mem_iff

theorem pairwise_byPriority (p : List SourceID) (L : SourceLedger) :
    (L.byPriority p).Pairwise (fun a b => precedes p a.source b.source) := by
  haveI : IsTotal Snapshot (fun a b => precedes p a.source b.source) :=
    ⟨fun a b => precedes_total p a.source b.source⟩
  haveI : IsTrans Snapshot (fun a b => precedes p a.source b.source) :=
    ⟨fun _ _ _ h1 h2 => precedes_trans h1 h2⟩
  exact List.sorted_insertionSort _ L

/-- A snapshot wins a field when it has the field and has priority over every snapshot of
the ledger that has the field. -/
theorem mergeField_winner {p : List SourceID} {L : SourceLedger} {f : Field} {v : Value}
    (h : mergeField p L f = some v) :
    ∃ s ∈ L, s.attrs.lookup f = some v ∧
      ∀ t ∈ L, (t.attrs.lookup f).isSome = true → precedes p s.source t.source := by
  obtain ⟨x, hx, hgx, hall⟩ :=
    findSome_pairwise (r := fun a b : Snapshot => precedes p a.source b.source)
      (fun a => precedes_refl p a.source) (fun s => s.attrs.lookup f) _
      (pairwise_byPriority p L) v h
  exact ⟨x, mem_byPriority.mp hx, hgx, fun t ht hs => hall t (mem_byPriority.mpr ht) hs⟩

theorem mergeField_of_winner {p : List SourceID} {L : SourceLedger} {f : Field} {v : Value}
    (hnd : (L.map (fun s => s.source)).Nodup) {s : Snapshot} (hs : s ∈ L)
    (hv : s.attrs.lookup f = some v)
    (hall : ∀ t ∈ L, (t.attrs.lookup f).isSome = true → precedes p s.source t.source) :
    mergeField p L f = some v := by
  cases hm : mergeField p L f with
  | none =>
    unfold mergeField at hm
    rw [List.findSome?_eq_none_iff] at hm
    have := hm s (mem_byPriority.mpr hs)
    rw [hv] at this
    cases this
  | some w =>
    obtain ⟨s', hs', hv', hall'⟩ := mergeField_winner hm
    have h1 := hall s' hs' (by rw [hv']; rfl)
    have h2 := hall' s hs (by rw [hv]; rfl)
    have hsrc : s.source = s'.source := precedes_antisymm h1 h2
    have heq : s = s' := List.inj_on_of_nodup_map hnd hs hs' hsrc
    subst heq
    rw [hv] at hv'
    exact hv'.symm

theorem snapshotOf_eq_some_of_mem {L : SourceLedger}
    (hnd : (L.map (fun s => s.source)).Nodup) {s : Snapshot} (hs : s ∈ L) :
    L.snapshotOf s.source = some s.attrs := by
  unfold SourceLedger.snapshotOf
  cases hfind : L.find? (fun t => decide (t.source = s.source)) with
  | none =>
    rw [List.find?_eq_none] at hfind
    have := hfind s hs
    simp at this
  | some t =>
    have ht : t ∈ L := List.mem_of_find?_eq_some hfind
    have hsrc : t.source = s.source := by
      have := List.find?_some hfind
      simpa using this
    have : t = s := List.inj_on_of_nodup_map hnd ht hs hsrc
    subst this
    rfl

theorem mem_of_snapshotOf {L : SourceLedger} {src : SourceID} {a : Attrs}
    (h : L.snapshotOf src = some a) : ∃ s ∈ L, s.source = src ∧ s.attrs = a := by
  unfold SourceLedger.snapshotOf at h
  cases hfind : L.find? (fun t => decide (t.source = src)) with
  | none => rw [hfind] at h; cases h
  | some t =>
    rw [hfind] at h
    simp only [Option.map_some', Option.some.injEq] at h
    have hsrc : t.source = src := by
      have := List.find?_some hfind
      simpa using this
    exact ⟨t, List.mem_of_find?_eq_some hfind, hsrc, h⟩

/-- The merged value of a field, read on the ledger as a map from sources to snapshots:
it is `v` exactly when a contributing source has `v` for the field and has priority
over every contributing source that has the field. -/
theorem mergeField_iff {p : List SourceID} {L : SourceLedger}
    (hnd : (L.map (fun s => s.source)).Nodup) (f : Field) (v : Value) :
    mergeField p L f = some v ↔
      ∃ src a, L.snapshotOf src = some a ∧ a.lookup f = some v ∧
        ∀ src' a', L.snapshotOf src' = some a' → (a'.lookup f).isSome = true →
          precedes p src src' := by
  constructor
  · intro h
    obtain ⟨s, hs, hv, hall⟩ := mergeField_winner h
    refine ⟨s.source, s.attrs, snapshotOf_eq_some_of_mem hnd hs, hv, ?_⟩
    intro src' a' hsnap hsome
    obtain ⟨t, ht, rfl, rfl⟩ := mem_of_snapshotOf hsnap
    exact hall t ht hsome
  · rintro ⟨src, a, hsnap, hv, hall⟩
    obtain ⟨s, hs, rfl, rfl⟩ := mem_of_snapshotOf hsnap
    exact mergeField_of_winner hnd hs hv
      (fun t ht hsome => hall t.source t.attrs (snapshotOf_eq_some_of_mem hnd ht) hsome)

end workloadmeta

namespace workloadmeta

theorem applySourceEvent_nodup {cfg : Config} {L L' : SourceLedger} {src : SourceID}
    {obs : Observation} {now : Nat} (hnd : (L.map (fun s => s.source)).Nodup)
    (h : L.applySourceEvent cfg src obs now = .ok L') :
    (L'.map (fun s => s.source)).Nodup := by
  unfold SourceLedger.applySourceEvent at h
  have hfilter : ((L.filter (fun s => decide (s.source ≠ src))).map (fun s => s.source)).Nodup :=
    (List.filter_sublist L).map _ |>.nodup hnd
  split at h
  · cases obs with
    | Set attrs =>
      simp only [Except.ok.injEq] at h
      subst h
      rw [List.map_cons, List.nodup_cons]
      refine ⟨?_, hfilter⟩
      intro hmem
      rw [List.mem_map] at hmem
      obtain ⟨t, ht, hsrc⟩ := hmem
      have := (List.mem_filter.mp ht).2
      simp only [ne_eq, decide_not, Bool.not_eq_true', decide_eq_false_iff_not] at this
      exact this hsrc
    | Unset =>
      simp only [Except.ok.injEq] at h
      subst h
      exact hfilter
  · cases h

theorem lookup_mem {a : Attrs} {f : Field} {v : Value} (h : a.lookup f = some v) :
    (f, v) ∈ a := by
  induction a with
  | nil => simp at h
  | cons q a ih =>
    obtain ⟨k, w⟩ := q
    rw [List.lookup_cons] at h
    by_cases hk : f = k
    · subst hk
      simp only [beq_self_eq_true, Option.some.injEq] at h
      subst h
      exact List.mem_cons_self _ _
    · have hb : (f == k) = false := by simpa using hk
      rw [hb] at h
      exact List.mem_cons_of_mem _ (ih h)

theorem applySourceEvent_schema {cfg : Config} {L L' : SourceLedger} {src : SourceID}
    {obs : Observation} {now : Nat}
    (hsch : ∀ s ∈ L, ∀ q ∈ s.attrs, q.1 ∈ cfg.schema)
    (h : L.applySourceEvent cfg src obs now = .ok L') :
    ∀ s ∈ L', ∀ q ∈ s.attrs, q.1 ∈ cfg.schema := by
  unfold SourceLedger.applySourceEvent at h
  split at h
  · rename_i hwf
    cases obs with
    | Set attrs =>
      simp only [Except.ok.injEq] at h
      subst h
      intro s hs q hq
      rcases List.mem_cons.mp hs with rfl | hs
      · simp only [Observation.wellFormed, List.all_eq_true, decide_eq_true_eq] at hwf
        exact hwf q hq
      · exact hsch s (List.mem_filter.mp hs).1 q hq
    | Unset =>
      simp only [Except.ok.injEq] at h
      subst h
      intro s hs q hq
      exact hsch s (List.mem_filter.mp hs).1 q hq
  · cases h

/-- What every state reached by per-source events satisfies. -/
theorem applyAll_inv (cfg : Config) (id : EntityID) (evs : List SourceEvent) :
    ((EntityState.applyAll cfg id evs).ledger.map (fun s => s.source)).Nodup ∧
    (∀ s ∈ (EntityState.applyAll cfg id evs).ledger, ∀ q ∈ s.attrs, q.1 ∈ cfg.schema) ∧
    (EntityState.applyAll cfg id evs).merged =
      mergeEntity cfg id (EntityState.applyAll cfg id evs).ledger := by
  unfold EntityState.applyAll
  induction evs using List.reverseRecOn with
  | nil =>
    refine ⟨List.nodup_nil, ?_, rfl⟩
    intro s hs
    cases hs
  | append_singleton evs ev ih =>
    rw [List.foldl_append]
    simp only [List.foldl_cons, List.foldl_nil]
    obtain ⟨hnd, hsch, hm⟩ := ih
    generalize List.foldl (EntityState.apply cfg id) EntityState.init evs = st at *
    unfold EntityState.apply
    cases happ : st.ledger.applySourceEvent cfg ev.source ev.obs ev.time with
    | error c => exact ⟨hnd, hsch, hm⟩
    | ok L => exact ⟨applySourceEvent_nodup hnd happ, applySourceEvent_schema hsch happ, rfl⟩

theorem lookup_mergeAttrs (cfg : Config) (L : SourceLedger) (f : Field) :
    (mergeAttrs cfg L).lookup f =
      if f ∈ cfg.schema then mergeField cfg.priority L f else none := by
  unfold mergeAttrs
  induction cfg.schema with
  | nil => simp
  | cons g gs ih =>
    rw [List.filterMap_cons]
    cases hg : mergeField cfg.priority L g with
    | none =>
      simp only [Option.map_none']
      rw [ih]
      by_cases hfg : f = g
      · subst hfg
        simp [hg]
      · simp [hfg]
    | some w =>
      simp only [Option.map_some']
      rw [List.lookup_cons]
      by_cases hfg : f = g
      · subst hfg
        simp [hg]
      · have hb : (f == g) = false := by simpa using hfg
        rw [hb]
        simp only [List.mem_cons, hfg, false_or]
        exact ih

theorem mergeField_none_of_not_schema {cfg : Config} {L : SourceLedger}
    (hsch : ∀ s ∈ L, ∀ q ∈ s.attrs, q.1 ∈ cfg.schema) {f : Field} (hf : f ∉ cfg.schema) :
    mergeField cfg.priority L f = none := by
  cases hm : mergeField cfg.priority L f with
  | none => rfl
  | some v =>
    obtain ⟨s, hs, hv, _⟩ := mergeField_winner hm
    exact absurd (hsch s hs _ (lookup_mem hv)) hf

theorem lookup_mergeAttrs_eq {cfg : Config} {L : SourceLedger}
    (hsch : ∀ s ∈ L, ∀ q ∈ s.attrs, q.1 ∈ cfg.schema) (f : Field) :
    (mergeAttrs cfg L).lookup f = mergeField cfg.priority L f := by
  rw [lookup_mergeAttrs]
  split
  · rfl
  · rename_i hf
    exact (mergeField_none_of_not_schema hsch hf).symm

/-- Two ledgers that hold the same snapshot for every source merge to the same
entity. -/
theorem mergeEntity_congr (cfg : Config) (id : EntityID) {L1 L2 : SourceLedger}
    (hnd1 : (L1.map (fun s => s.source)).Nodup) (hnd2 : (L2.map (fun s => s.source)).Nodup)
    (hsame : ∀ src, L1.snapshotOf src = L2.snapshotOf src) :
    mergeEntity cfg id L1 = mergeEntity cfg id L2 := by
  have hfield : ∀ f, mergeField cfg.priority L1 f = mergeField cfg.priority L2 f := by
    intro f
    apply Option.ext
    intro v
    rw [Option.mem_def, Option.mem_def, mergeField_iff hnd1, mergeField_iff hnd2]
    simp only [hsame]
  have hattrs : mergeAttrs cfg L1 = mergeAttrs cfg L2 := by
    unfold mergeAttrs
    simp only [hfield]
  have hempty : ∀ {A B : SourceLedger}, (A.map (fun s => s.source)).Nodup →
      (∀ src, A.snapshotOf src = B.snapshotOf src) → B = [] → A = [] := by
    intro A B hA hAB hB
    cases A with
    | nil => rfl
    | cons s A =>
      have h1 := snapshotOf_eq_some_of_mem hA (List.mem_cons_self s A)
      rw [hAB, hB] at h1
      cases h1
  unfold mergeEntity
  rw [hattrs]
  cases L1 with
  | nil =>
    have : L2 = [] := hempty hnd2 (fun src => (hsame src).symm) rfl
    rw [this]
  | cons s L1 =>
    cases L2 with
    | nil => exact absurd (hempty hnd1 hsame rfl) (List.cons_ne_nil _ _)
    | cons t L2 => rfl

end workloadmeta

/-! ## Claims on the merge engine -/

/-- C4: for every sequence of per-source Set/Unset events applied to one entity, the final
merged entity is the merge of the final Source Ledger: there is a merged entity exactly
when the ledger is not empty, and each of its fields has the value of the
highest-priority source that has the field (absent when no source has it); and two
sequences that leave every source with the same snapshot yield the same merged entity,
whatever the order in which the events were applied. -/
theorem C4_merged_is_priority_merge (cfg : workloadmeta.Config) (id : workloadmeta.EntityID)
    (evs evs' : List workloadmeta.SourceEvent) :
    (workloadmeta.EntityState.applyAll cfg id evs).merged =
      workloadmeta.mergeEntity cfg id (workloadmeta.EntityState.applyAll cfg id evs).ledger ∧
    ((workloadmeta.EntityState.applyAll cfg id evs).merged = none ↔
      (workloadmeta.EntityState.applyAll cfg id evs).ledger = []) ∧
    (∀ e, (workloadmeta.EntityState.applyAll cfg id evs).merged = some e →
      e.ID = id ∧ ∀ f v, e.Attrs.lookup f = some v ↔
        ∃ src a, (workloadmeta.EntityState.applyAll cfg id evs).ledger.snapshotOf src = some a ∧
          a.lookup f = some v ∧
          ∀ src' a', (workloadmeta.EntityState.applyAll cfg id evs).ledger.snapshotOf src' = some a' →
            (a'.lookup f).isSome = true → workloadmeta.precedes cfg.priority src src') ∧
    ((∀ src, (workloadmeta.EntityState.applyAll cfg id evs).ledger.snapshotOf src =
        (workloadmeta.EntityState.applyAll cfg id evs').ledger.snapshotOf src) →
      (workloadmeta.EntityState.applyAll cfg id evs).merged =
        (workloadmeta.EntityState.applyAll cfg id evs').merged) := by
  obtain ⟨hnd, hsch, hm⟩ := workloadmeta.applyAll_inv cfg id evs
  obtain ⟨hnd', _, hm'⟩ := workloadmeta.applyAll_inv cfg id evs'
  refine ⟨hm, ?_, ?_, ?_⟩
  · rw [hm]
    unfold workloadmeta.mergeEntity
    cases (workloadmeta.EntityState.applyAll cfg id evs).ledger <;> simp
  · intro e he
    rw [hm] at he
    unfold workloadmeta.mergeEntity at he
    split at he
    · cases he
    · simp only [Option.some.injEq] at he
      subst he
      refine ⟨rfl, ?_⟩
      intro f v
      simp only
      rw [workloadmeta.lookup_mergeAttrs_eq hsch, workloadmeta.mergeField_iff hnd]
  · intro hsame
    rw [hm, hm']
    exact workloadmeta.mergeEntity_congr cfg id hnd hnd' hsame

/-- C4 at a concrete entity with priorities runtime over kubelet: the two sources set
`image` in either order; the ledgers differ as lists and in their timestamps, every
source has the same snapshot in both, and both merge to `image: b`. -/
theorem C4_merged_is_priority_merge_witness :
    (workloadmeta.EntityState.applyAll ⟨["runtime", "kubelet"], ["image"]⟩ ⟨"container", "c1"⟩
        [⟨"kubelet", .Set [("image", .str "a")], 1⟩,
          ⟨"runtime", .Set [("image", .str "b")], 2⟩]).ledger ≠
      (workloadmeta.EntityState.applyAll ⟨["runtime", "kubelet"], ["image"]⟩ ⟨"container", "c1"⟩
        [⟨"runtime", .Set [("image", .str "b")], 5⟩,
          ⟨"kubelet", .Set [("image", .str "a")], 6⟩]).ledger ∧
    (workloadmeta.EntityState.applyAll ⟨["runtime", "kubelet"], ["image"]⟩ ⟨"container", "c1"⟩
        [⟨"kubelet", .Set [("image", .str "a")], 1⟩,
          ⟨"runtime", .Set [("image", .str "b")], 2⟩]).merged =
      some ⟨⟨"container", "c1"⟩, [("image", .str "b")]⟩ ∧
    (workloadmeta.EntityState.applyAll ⟨["runtime", "kubelet"], ["image"]⟩ ⟨"container", "c1"⟩
        [⟨"kubelet", .Set [("image", .str "a")], 1⟩,
          ⟨"runtime", .Set [("image", .str "b")], 2⟩]).merged =
      (workloadmeta.EntityState.applyAll ⟨["runtime", "kubelet"], ["image"]⟩ ⟨"container", "c1"⟩
        [⟨"runtime", .Set [("image", .str "b")], 5⟩,
          ⟨"kubelet", .Set [("image", .str "a")], 6⟩]).merged := by
  refine ⟨by decide, by decide, ?_⟩
  refine (C4_merged_is_priority_merge ⟨["runtime", "kubelet"], ["image"]⟩ ⟨"container", "c1"⟩
    [⟨"kubelet", .Set [("image", .str "a")], 1⟩, ⟨"runtime", .Set [("image", .str "b")], 2⟩]
    [⟨"runtime", .Set [("image", .str "b")], 5⟩,
      ⟨"kubelet", .Set [("image", .str "a")], 6⟩]).2.2.2 ?_
  intro src
  have h1 : (workloadmeta.EntityState.applyAll ⟨["runtime", "kubelet"], ["image"]⟩
      ⟨"container", "c1"⟩
      [⟨"kubelet", .Set [("image", .str "a")], 1⟩,
        ⟨"runtime", .Set [("image", .str "b")], 2⟩]).ledger =
      [⟨"runtime", [("image", .str "b")], 2⟩, ⟨"kubelet", [("image", .str "a")], 1⟩] := by
    decide
  have h2 : (workloadmeta.EntityState.applyAll ⟨["runtime", "kubelet"], ["image"]⟩
      ⟨"container", "c1"⟩
      [⟨"runtime", .Set [("image", .str "b")], 5⟩,
        ⟨"kubelet", .Set [("image", .str "a")], 6⟩]).ledger =
      [⟨"kubelet", [("image", .str "a")], 6⟩, ⟨"runtime", [("image", .str "b")], 5⟩] := by
    decide
  rw [h1, h2]
  by_cases hr : "runtime" = src
  · subst hr
    decide
  · by_cases hk : "kubelet" = src
    · subst hk
      decide
    · simp [workloadmeta.SourceLedger.snapshotOf, List.find?, hr, hk]

/-! ## Theorems: subscribers, bundles and dispatch -/

namespace workloadmeta

theorem find_insertByPriority (sub : Subscriber) (name : String) (hname : sub.name = name) :
    ∀ subs : List Subscriber, (∀ s ∈ subs, s.name ≠ name) →
      (insertByPriority sub subs).find? (fun s => decide (s.name = name)) = some sub := by
  intro subs
  induction subs with
  | nil =>
    intro _
    simp [insertByPriority, List.find?, hname]
  | cons s subs ih =>
    intro hfresh
    have hs : s.name ≠ name := hfresh s (List.mem_cons_self _ _)
    unfold insertByPriority
    split
    · simp [List.find?, hname]
    · rw [List.find?_cons]
      have : decide (s.name = name) = false := by simpa using hs
      rw [this]
      exact ih (fun t ht => hfresh t (List.mem_cons_of_mem _ ht))

/-- Dispatching a batch appends at most one bundle to the stream of a subscriber: none
when no event passes its filter, otherwise the events that pass, in order. -/
theorem find_dispatchTo (changes : List ChangeEvent) (name : String) :
    ∀ (subs : List Subscriber) (ch : Nat) (s : Subscriber),
      subs.find? (fun t => decide (t.name = name)) = some s →
      ∃ extra, (dispatchTo changes ch subs).1.find? (fun t => decide (t.name = name)) =
          some { s with stream := s.stream ++ extra } ∧
        ((changes.filter (fun ev => passes s.filter ev.entity) = [] ∧ extra = []) ∨
          (changes.filter (fun ev => passes s.filter ev.entity) ≠ [] ∧
            ∃ c, ch ≤ c ∧ extra =
              [{ Events := changes.filter (fun ev => passes s.filter ev.entity),
                 Ch := some c }])) := by
  intro subs
  induction subs with
  | nil => intro ch s h; simp at h
  | cons t subs ih =>
    intro ch s h
    rw [List.find?_cons] at h
    by_cases ht : t.name = name
    · have hd : decide (t.name = name) = true := by simpa using ht
      rw [hd] at h
      simp only [Option.some.injEq] at h
      subst h
      unfold dispatchTo
      subst ht
      by_cases hempty : changes.filter (fun ev => passes t.filter ev.entity) = []
      · refine ⟨[], ?_, Or.inl ⟨hempty, rfl⟩⟩
        simp [hempty, List.find?]
      · refine ⟨[{ Events := changes.filter (fun ev => passes t.filter ev.entity),
                   Ch := some ch }], ?_, Or.inr ⟨hempty, ch, Nat.le_refl _, rfl⟩⟩
        simp [hempty, List.find?]
    · have hd : decide (t.name = name) = false := by simpa using ht
      rw [hd] at h
      unfold dispatchTo
      by_cases hempty : changes.filter (fun ev => passes t.filter ev.entity) = []
      · obtain ⟨extra, hfind, hextra⟩ := ih ch s h
        refine ⟨extra, ?_, hextra⟩
        simp only [hempty, List.isEmpty_nil, if_true]
        rw [List.find?_cons, hd]
        exact hfind
      · obtain ⟨extra, hfind, hextra⟩ := ih (ch + 1) s h
        refine ⟨extra, ?_, ?_⟩
        · have hne : (changes.filter (fun ev => passes t.filter ev.entity)).isEmpty = false := by
            cases hc : changes.filter (fun ev => passes t.filter ev.entity) with
            | nil => exact absurd hc hempty
            | cons _ _ => rfl
          simp only [hne, Bool.false_eq_true, if_false]
          rw [List.find?_cons]
          simp only [hd]
          exact hfind
        · rcases hextra with h0 | ⟨h1, c, hc, hx⟩
          · exact Or.inl h0
          · exact Or.inr ⟨h1, c, by omega, hx⟩

theorem applySourceEvent_subscribers (st : Store) (ev : CollectorEvent) :
    (st.applySourceEvent ev).1.subscribers = st.subscribers ∧
    (st.applySourceEvent ev).1.nextCh = st.nextCh ∧
    ∀ c ∈ (st.applySourceEvent ev).2, c.source = some ev.source := by
  unfold Store.applySourceEvent
  simp only
  split
  · refine ⟨rfl, rfl, ?_⟩
    intro c hc; cases hc
  · split
    · refine ⟨rfl, rfl, ?_⟩
      intro c hc
      simp only [List.mem_singleton] at hc
      subst hc; rfl
    · refine ⟨rfl, rfl, ?_⟩
      intro c hc
      simp only [List.mem_singleton] at hc
      subst hc; rfl

theorem ingest_subscribers (evs : List CollectorEvent) : ∀ st : Store,
    (st.ingest evs).1.subscribers = st.subscribers ∧
    (st.ingest evs).1.nextCh = st.nextCh ∧
    ∀ c ∈ (st.ingest evs).2, c.source ≠ none := by
  induction evs with
  | nil =>
    intro st
    refine ⟨rfl, rfl, ?_⟩
    intro c hc; cases hc
  | cons ev evs ih =>
    intro st
    obtain ⟨h1, h2, h3⟩ := applySourceEvent_subscribers st ev
    obtain ⟨i1, i2, i3⟩ := ih (st.applySourceEvent ev).1
    simp only [Store.ingest]
    refine ⟨i1.trans h1, i2.trans h2, ?_⟩
    intro c hc
    rcases List.mem_append.mp hc with hc | hc
    · rw [h3 c hc]; exact Option.some_ne_none _
    · exact i3 c hc

/-- What the stream of a subscriber holds after its bootstrap bundle: bundles that are
not empty, of events a source triggered and that pass the filter. -/
theorem stream_handleEvents (st : Store) (evs : List CollectorEvent) (name : String)
    (s : Subscriber) (hs : st.subscribers.find? (fun t => decide (t.name = name)) = some s) :
    ∃ extra, (st.handleEvents evs).subscribers.find? (fun t => decide (t.name = name)) =
        some { s with stream := s.stream ++ extra } ∧
      ((((st.ingest evs).2.filter (fun ev => passes s.filter ev.entity)) = [] ∧ extra = []) ∨
        (((st.ingest evs).2.filter (fun ev => passes s.filter ev.entity)) ≠ [] ∧
          ∃ c, st.nextCh ≤ c ∧ extra =
            [{ Events := (st.ingest evs).2.filter (fun ev => passes s.filter ev.entity),
               Ch := some c }])) ∧
      ∀ b ∈ extra, b.Events ≠ [] ∧
        ∀ ev ∈ b.Events, ev.source ≠ none ∧ passes s.filter ev.entity = true := by
  obtain ⟨h1, h2, h3⟩ := ingest_subscribers evs st
  have hs' : (st.ingest evs).1.subscribers.find? (fun t => decide (t.name = name)) = some s := by
    rw [h1]; exact hs
  obtain ⟨extra, hfind, hextra⟩ :=
    find_dispatchTo (st.ingest evs).2 name (st.ingest evs).1.subscribers
      (st.ingest evs).1.nextCh s hs'
  refine ⟨extra, hfind, ?_, ?_⟩
  · rw [h2] at hextra
    exact hextra
  · intro b hb
    rcases hextra with ⟨_, h0⟩ | ⟨hne, c, _, hx⟩
    · rw [h0] at hb; cases hb
    · rw [hx] at hb
      simp only [List.mem_singleton] at hb
      subst hb
      refine ⟨hne, ?_⟩
      intro ev hev
      obtain ⟨hmem, hpass⟩ := List.mem_filter.mp hev
      exact ⟨h3 ev hmem, hpass⟩

end workloadmeta

namespace workloadmeta

theorem stream_handleAll (name : String) (batches : List (List CollectorEvent)) :
    ∀ (st : Store) (s : Subscriber),
      st.subscribers.find? (fun t => decide (t.name = name)) = some s →
      ∃ later, (st.handleAll batches).subscribers.find? (fun t => decide (t.name = name)) =
          some { s with stream := s.stream ++ later } ∧
        ∀ b ∈ later, b.Events ≠ [] ∧
          ∀ ev ∈ b.Events, ev.source ≠ none ∧ passes s.filter ev.entity = true := by
  induction batches with
  | nil =>
    intro st s hs
    refine ⟨[], ?_, ?_⟩
    · simp only [Store.handleAll, List.foldl_nil, List.append_nil]
      exact hs
    · intro b hb; cases hb
  | cons evs batches ih =>
    intro st s hs
    obtain ⟨extra, hfind, _, hprop⟩ := stream_handleEvents st evs name s hs
    obtain ⟨later, hfind', hprop'⟩ := ih (st.handleEvents evs) _ hfind
    refine ⟨extra ++ later, ?_, ?_⟩
    · simp only [Store.handleAll, List.foldl_cons]
      simp only [Store.handleAll] at hfind'
      rw [hfind']
      simp only [List.append_assoc]
    · intro b hb
      rcases List.mem_append.mp hb with hb | hb
      · exact hprop b hb
      · exact hprop' b hb

theorem subscribe_ok {st st' : Store} {name : String} {priority : Priority}
    {filter : Option (Entity → Bool)} (hsub : st.Subscribe name priority filter = .ok st') :
    st'.subscribers.find? (fun t => decide (t.name = name)) =
      some { name := name, priority := priority, filter := filter,
             stream := [{ Events := st.bootstrapEvents filter, Ch := some st.nextCh }] } := by
  unfold Store.Subscribe at hsub
  split at hsub
  · cases hsub
  · rename_i hfresh
    simp only [Except.ok.injEq] at hsub
    subst hsub
    simp only
    refine find_insertByPriority
      { name := name, priority := priority, filter := filter,
        stream := [{ Events := st.bootstrapEvents filter, Ch := some st.nextCh }] }
      name rfl st.subscribers ?_
    intro s hs hname
    apply hfresh
    rw [List.any_eq_true]
    exact ⟨s, hs, by simpa using hname⟩

theorem filter_passes_none (changes : List ChangeEvent) :
    changes.filter (fun ev => passes none ev.entity) = changes := by
  rw [List.filter_eq_self]
  intro ev _
  rfl

end workloadmeta

/-! ## Claims on the subscriber registry -/

/-- C2: when `Subscribe` returns a channel, the first bundle delivered on it holds a Set
event for every entity of the merged view that passes the filter and nothing else (it is
empty when the store holds no entity), and after any ingestion cycles it is still the
first bundle, followed only by non-empty bundles of source-triggered change events that
pass the filter.  For the subscriber of testFakeHelper (name `dummySubscriber`, filter
nil, `NormalPriority`, on a new store) `Subscribe` succeeds, the first bundle is empty,
and the second bundle carries the change events of the resource the collector
reports. -/
theorem C2_first_bundle_is_bootstrap (st st' : workloadmeta.Store) (name : String)
    (priority : workloadmeta.Priority) (filter : Option (workloadmeta.Entity → Bool))
    (batches : List (List workloadmeta.CollectorEvent))
    (hsub : st.Subscribe name priority filter = .ok st') :
    st'.streamOf name = [{ Events := st.bootstrapEvents filter, Ch := some st.nextCh }] ∧
    (∀ ev, ev ∈ st.bootstrapEvents filter ↔
      ∃ e ∈ st.merged, workloadmeta.passes filter e = true ∧
        ev = { type := .Set, entity := e, source := none }) ∧
    (st.merged = [] → st.bootstrapEvents filter = []) ∧
    (∃ later, (st'.handleAll batches).streamOf name =
        { Events := st.bootstrapEvents filter, Ch := some st.nextCh } :: later ∧
      ∀ b ∈ later, b.Events ≠ [] ∧
        ∀ ev ∈ b.Events, ev.source ≠ none ∧ workloadmeta.passes filter ev.entity = true) ∧
    (∀ (cfg : workloadmeta.Config) (evs : List workloadmeta.CollectorEvent),
      ∃ st1, (workloadmeta.NewMockStore cfg).Subscribe kubeapiserver.dummySubscriber
          workloadmeta.NormalPriority none = .ok st1 ∧
        st1.streamOf kubeapiserver.dummySubscriber = [{ Events := [], Ch := some 0 }] ∧
        ((st1.ingest evs).2 ≠ [] →
          (st1.handleEvents evs).streamOf kubeapiserver.dummySubscriber =
            [{ Events := [], Ch := some 0 }, { Events := (st1.ingest evs).2, Ch := some 1 }])) := by
  have hfind := workloadmeta.subscribe_ok hsub
  refine ⟨?_, ?_, ?_, ?_, ?_⟩
  · unfold workloadmeta.Store.streamOf
    rw [hfind]
  · intro ev
    unfold workloadmeta.Store.bootstrapEvents
    simp only [List.mem_map, List.mem_filter]
    constructor
    · rintro ⟨e, ⟨he, hp⟩, rfl⟩
      exact ⟨e, he, hp, rfl⟩
    · rintro ⟨e, he, hp, rfl⟩
      exact ⟨e, ⟨he, hp⟩, rfl⟩
  · intro hempty
    unfold workloadmeta.Store.bootstrapEvents
    rw [hempty]
    rfl
  · obtain ⟨later, hlater, hprop⟩ := workloadmeta.stream_handleAll name batches st' _ hfind
    refine ⟨later, ?_, hprop⟩
    unfold workloadmeta.Store.streamOf
    rw [hlater]
    rfl
  · intro cfg evs
    have hs1 : (workloadmeta.NewMockStore cfg).Subscribe kubeapiserver.dummySubscriber
        workloadmeta.NormalPriority none =
        .ok { cfg := cfg, entities := [],
              subscribers := [{ name := kubeapiserver.dummySubscriber,
                                priority := workloadmeta.NormalPriority, filter := none,
                                stream := [{ Events := [], Ch := some 0 }] }],
              nextCh := 1 } := rfl
    refine ⟨_, hs1, rfl, ?_⟩
    intro hne
    obtain ⟨h1, h2, _⟩ := workloadmeta.ingest_subscribers evs
      { cfg := cfg, entities := [],
        subscribers := [{ name := kubeapiserver.dummySubscriber,
                          priority := workloadmeta.NormalPriority, filter := none,
                          stream := [{ Events := [], Ch := some 0 }] }],
        nextCh := 1 }
    unfold workloadmeta.Store.streamOf workloadmeta.Store.handleEvents
    simp only [h1, h2]
    have hne' : (workloadmeta.Store.ingest
        { cfg := cfg, entities := [],
          subscribers := [{ name := kubeapiserver.dummySubscriber,
                            priority := workloadmeta.NormalPriority, filter := none,
                            stream := [{ Events := [], Ch := some 0 }] }],
          nextCh := 1 } evs).2.isEmpty = false := by
      cases hc : (workloadmeta.Store.ingest
        { cfg := cfg, entities := [],
          subscribers := [{ name := kubeapiserver.dummySubscriber,
                            priority := workloadmeta.NormalPriority, filter := none,
                            stream := [{ Events := [], Ch := some 0 }] }],
          nextCh := 1 } evs).2 with
      | nil => exact absurd hc hne
      | cons _ _ => rfl
    simp [workloadmeta.dispatchTo, workloadmeta.filter_passes_none, hne', List.find?]

/-- C2 at a concrete store holding a deployment and a pod: a subscriber that filters on
deployments gets the Set event of the deployment alone as its first bundle; and the
scenario of testFakeHelper on a new store: the first bundle is empty, the second carries
the Set event of the created deployment. -/
theorem C2_first_bundle_is_bootstrap_witness :
    (workloadmeta.Store.streamOf
        { cfg := ⟨["kubeapiserver"], ["replicas", "phase"]⟩,
          entities :=
            [(⟨"Deployment", "d1"⟩,
                ⟨[⟨"kubeapiserver", [("replicas", .num 3)], 1⟩],
                  some ⟨⟨"Deployment", "d1"⟩, [("replicas", .num 3)]⟩⟩),
              (⟨"Pod", "p1"⟩,
                ⟨[⟨"kubeapiserver", [("phase", .str "Running")], 2⟩],
                  some ⟨⟨"Pod", "p1"⟩, [("phase", .str "Running")]⟩⟩)],
          subscribers :=
            [{ name := "late", priority := workloadmeta.NormalPriority,
               filter := some (fun e => e.ID.Kind == "Deployment"),
               stream :=
                 [{ Events :=
                      [{ type := .Set,
                         entity := ⟨⟨"Deployment", "d1"⟩, [("replicas", .num 3)]⟩,
                         source := none }],
                    Ch := some 0 }] }],
          nextCh := 1 } "late" =
      [{ Events :=
           workloadmeta.Store.bootstrapEvents
             { cfg := ⟨["kubeapiserver"], ["replicas", "phase"]⟩,
               entities :=
                 [(⟨"Deployment", "d1"⟩,
                     ⟨[⟨"kubeapiserver", [("replicas", .num 3)], 1⟩],
                       some ⟨⟨"Deployment", "d1"⟩, [("replicas", .num 3)]⟩⟩),
                   (⟨"Pod", "p1"⟩,
                     ⟨[⟨"kubeapiserver", [("phase", .str "Running")], 2⟩],
                       some ⟨⟨"Pod", "p1"⟩, [("phase", .str "Running")]⟩⟩)],
               subscribers := [], nextCh := 0 }
             (some (fun e => e.ID.Kind == "Deployment")),
         Ch := some 0 }]) ∧
    (match (workloadmeta.NewMockStore ⟨["kubeapiserver"], ["replicas"]⟩).Subscribe
        kubeapiserver.dummySubscriber workloadmeta.NormalPriority none with
      | .ok st =>
          (st.handleEvents
            [⟨⟨"Deployment", "d1"⟩, "kubeapiserver", .Set [("replicas", .num 3)], 1⟩]).streamOf
            kubeapiserver.dummySubscriber
      | .error _ => []) =
      [{ Events := [], Ch := some 0 },
        { Events :=
            [{ type := .Set, entity := ⟨⟨"Deployment", "d1"⟩, [("replicas", .num 3)]⟩,
               source := some "kubeapiserver" }],
          Ch := some 1 }] :=
  ⟨(C2_first_bundle_is_bootstrap
      { cfg := ⟨["kubeapiserver"], ["replicas", "phase"]⟩,
        entities :=
          [(⟨"Deployment", "d1"⟩,
              ⟨[⟨"kubeapiserver", [("replicas", .num 3)], 1⟩],
                some ⟨⟨"Deployment", "d1"⟩, [("replicas", .num 3)]⟩⟩),
            (⟨"Pod", "p1"⟩,
              ⟨[⟨"kubeapiserver", [("phase", .str "Running")], 2⟩],
                some ⟨⟨"Pod", "p1"⟩, [("phase", .str "Running")]⟩⟩)],
        subscribers := [], nextCh := 0 }
      _ "late" workloadmeta.NormalPriority (some (fun e => e.ID.Kind == "Deployment")) []
      rfl).1,
    by decide⟩
